import Mathlib

/-!
Shallow embedding of the CV/portfolio toolchain
(`generate_cv.js`, `generate_cv_lib` as included in `generate_portfolio.js`,
`server.js`) for checking the repository's specification.

JSON values are modelled as `JVal`; JS objects are association lists in JS
property-enumeration order.  JS numbers that occur in the data paths the
claims exercise are integers, so they are modelled as `Int`.
-/

/-- A JSON value, as produced by `JSON.parse`.  Object keys are listed in JS
property-enumeration order. -/
inductive JVal : Type where
  | null : JVal
  | bool : Bool → JVal
  | num : Int → JVal
  | str : String → JVal
  | arr : List JVal → JVal
  | obj : List (String × JVal) → JVal
deriving Repr

/-- First binding of a key in a JS object (JS objects have unique keys, so the
first binding is the binding); `none` models `undefined`. -/
def jsLookup (kvs : List (String × JVal)) (k : String) : Option JVal :=
  match kvs with
  | [] => none
  | (k', v) :: rest => if k' = k then some v else jsLookup rest k

/-- `typeof v === 'string' || Array.isArray(v)` — the shape test `localizeData`
applies to the value found under the language key. -/
def isStrOrArr : JVal → Bool
  | .str _ => true
  | .arr _ => true
  | _ => false

mutual

/-- `localizeData(data, lang)` from `generate_cv.js` lines 25–42 (identical in
the library copy used by `generate_portfolio.js`): arrays are mapped
recursively; an object whose `lang` key holds a string or array collapses to
that value; any other object is rebuilt with every value localized; scalars
(including `null`) are returned as-is.  The function is pure: it never writes
into its argument. -/
def localizeData (lang : String) : JVal → JVal
  | .arr xs => .arr (localizeList lang xs)
  | .obj kvs =>
      match jsLookup kvs lang with
      | some v =>
          if isStrOrArr v then v
          else .obj (localizeKVs lang kvs)
      | none => .obj (localizeKVs lang kvs)
  | v => v

/-- `data.map(item => localizeData(item, lang))`. -/
def localizeList (lang : String) : List JVal → List JVal
  | [] => []
  | x :: xs => localizeData lang x :: localizeList lang xs

/-- The `Object.entries` loop rebuilding an object with localized values. -/
def localizeKVs (lang : String) : List (String × JVal) → List (String × JVal)
  | [] => []
  | (k, v) :: rest => (k, localizeData lang v) :: localizeKVs lang rest

end

mutual

/-- Specification-side predicate: does the document contain a bilingual node
for `lang`, i.e. a sub-object whose `lang` key holds a string or array (the
exact shape `localizeData` collapses)?  A document with
`hasBilingual lang d = false` is "already localized" in the sense of the
spec. -/
def hasBilingual (lang : String) : JVal → Bool
  | .arr xs => hasBilingualList lang xs
  | .obj kvs =>
      (match jsLookup kvs lang with
       | some v => isStrOrArr v
       | none => false) || hasBilingualKVs lang kvs
  | _ => false

/-- `hasBilingual` over the elements of an array. -/
def hasBilingualList (lang : String) : List JVal → Bool
  | [] => false
  | x :: xs => hasBilingual lang x || hasBilingualList lang xs

/-- `hasBilingual` over the values of an object. -/
def hasBilingualKVs (lang : String) : List (String × JVal) → Bool
  | [] => false
  | (_, v) :: rest => hasBilingual lang v || hasBilingualKVs lang rest

end

mutual

/-- Localizing a document with no bilingual node for `lang` is the
identity. -/
theorem localizeData_noop (lang : String) :
    (d : JVal) → hasBilingual lang d = false → localizeData lang d = d
  | .null, _ => rfl
  | .bool _, _ => rfl
  | .num _, _ => rfl
  | .str _, _ => rfl
  | .arr xs, h => by
      have hxs : hasBilingualList lang xs = false := by
        simpa [hasBilingual] using h
      simp [localizeData, localizeList_noop lang xs hxs]
  | .obj kvs, h => by
      have h' := h
      simp only [hasBilingual, Bool.or_eq_false_iff] at h'
      have hk : localizeKVs lang kvs = kvs := localizeKVs_noop lang kvs h'.2
      cases hl : jsLookup kvs lang with
      | none => simp [localizeData, hl, hk]
      | some v =>
          have hv : isStrOrArr v = false := by
            have := h'.1
            rw [hl] at this
            exact this
          simp [localizeData, hl, hv, hk]

/-- Array version of `localizeData_noop`. -/
theorem localizeList_noop (lang : String) :
    (xs : List JVal) → hasBilingualList lang xs = false → localizeList lang xs = xs
  | [], _ => rfl
  | x :: xs, h => by
      simp only [hasBilingualList, Bool.or_eq_false_iff] at h
      simp [localizeList, localizeData_noop lang x h.1, localizeList_noop lang xs h.2]

/-- Object version of `localizeData_noop`. -/
theorem localizeKVs_noop (lang : String) :
    (kvs : List (String × JVal)) → hasBilingualKVs lang kvs = false → localizeKVs lang kvs = kvs
  | [], _ => rfl
  | (k, v) :: rest, h => by
      simp only [hasBilingualKVs, Bool.or_eq_false_iff] at h
      simp [localizeKVs, localizeData_noop lang v h.1, localizeKVs_noop lang rest h.2]

end

/-- C1: a bilingual node — an object whose key for the target language holds a
string or a list — with both language keys present localizes, for each
language, to exactly that language key's value.  `localizeData` is a pure
function in this embedding, mirroring the source, which returns `data[lang]`
or builds a fresh object/array and never assigns into its argument, so the
input document is left unchanged by the call. -/
theorem localizeData_bilingual_exact (kvs : List (String × JVal)) (vEn vNl : JVal)
    (hen : jsLookup kvs "en" = some vEn) (hnl : jsLookup kvs "nl" = some vNl)
    (sEn : isStrOrArr vEn = true) (sNl : isStrOrArr vNl = true) :
    localizeData "en" (.obj kvs) = vEn ∧ localizeData "nl" (.obj kvs) = vNl := by
  constructor
  · simp [localizeData, hen, sEn]
  · simp [localizeData, hnl, sNl]

/-- Witness for C1 at the node `{en: "Reader", nl: ["Lezer"]}`. -/
theorem localizeData_bilingual_exact_witness :
    localizeData "en" (.obj [("en", .str "Reader"), ("nl", .arr [.str "Lezer"])]) =
        .str "Reader" ∧
      localizeData "nl" (.obj [("en", .str "Reader"), ("nl", .arr [.str "Lezer"])]) =
        .arr [.str "Lezer"] :=
  localizeData_bilingual_exact _ _ _ rfl rfl rfl rfl

/-- C2, counterexample to the claimed equivalence
`localizeData (localizeData d l) l = localizeData d l`: on
`{en: {en: "a"}}` the first pass collapses the inner node, leaving
`{en: "a"}`, which a second pass collapses again to `"a"`. -/
theorem localizeData_not_idempotent_cex :
    localizeData "en" (localizeData "en" (.obj [("en", .obj [("en", .str "a")])])) ≠
      localizeData "en" (.obj [("en", .obj [("en", .str "a")])]) :=
  fun h => JVal.noConfusion h

/-- C2 as amended: on a document with no bilingual node for the target
language (a document that is "already localized"), `localizeData` is the
identity; the stronger double-application equation fails in general (see the
counterexample). -/
theorem localizeData_noop_on_localized (lang : String) (d : JVal)
    (h : hasBilingual lang d = false) : localizeData lang d = d :=
  localizeData_noop lang d h

/-- Witness for the amended C2 at `{title: "x", tags: ["a"]}`. -/
theorem localizeData_noop_on_localized_witness :
    hasBilingual "en" (.obj [("title", .str "x"), ("tags", .arr [.str "a"])]) = false ∧
      localizeData "en" (.obj [("title", .str "x"), ("tags", .arr [.str "a"])]) =
        .obj [("title", .str "x"), ("tags", .arr [.str "a"])] :=
  ⟨rfl, localizeData_noop_on_localized "en" _ rfl⟩

/-!
## Presentations grouping and the year comparator
(`renderTemplate`, `generate_portfolio.js` lines 84–99)

A presentation record is abstracted to the two fields the grouping reads
(`visible` and `date`) plus an identifier standing for the rest of the
record.  `visible : Option Bool` models the JS field being absent, `true` or
`false` (the code's test is the strict comparison `pres.visible === false`,
which only a boolean `false` passes); `date : Option String` models the date
field being absent or a string.
-/

structure PresEntry where
  visible : Option Bool
  date : Option String
  id : Nat
deriving DecidableEq, Repr

/-- The regex class `\d`, i.e. `[0-9]` (code points 48–57). -/
def isDigitChar (c : Char) : Bool := 48 ≤ c.toNat && c.toNat ≤ 57

/-- `/\d{4}/` succeeding at the start of the character list: the next four
characters are digits. -/
def fourDigitsHere : List Char → Option String
  | a :: b :: c :: d :: _ =>
      if isDigitChar a && isDigitChar b && isDigitChar c && isDigitChar d then
        some (String.mk [a, b, c, d])
      else none
  | _ => none

/-- `s.match(/\d{4}/)`: the leftmost run of four digits, if any. -/
def findFourDigits : List Char → Option String
  | [] => none
  | c :: cs =>
      match fourDigitsHere (c :: cs) with
      | some y => some y
      | none => findFourDigits cs

/-- `pres.date ? pres.date.match(/\d{4}/) : null` followed by
`yearMatch ? yearMatch[0] : 'Other'`: a missing date and the empty string are
falsy, and a date without a four-digit run yields the `"Other"` bucket. -/
def extractYear (date : Option String) : String :=
  match date with
  | none => "Other"
  | some s =>
      if s = "" then "Other"
      else
        match findFourDigits s.data with
        | some y => y
        | none => "Other"

/-- `if (!grouped[year]) grouped[year] = []; grouped[year].push(pres)`: append
to an existing bucket, or create a new bucket (a fresh, non-index key is
appended at the end of the object's property order). -/
def addToBucket (g : List (String × List PresEntry)) (y : String) (p : PresEntry) :
    List (String × List PresEntry) :=
  match g with
  | [] => [(y, [p])]
  | (k, items) :: rest =>
      if k = y then (k, items ++ [p]) :: rest
      else (k, items) :: addToBucket rest y p

/-- The grouping loop of `renderTemplate`: entries with `visible === false`
are skipped, the rest are bucketed under their extracted year. -/
def groupPres (ps : List PresEntry) : List (String × List PresEntry) :=
  ps.foldl
    (fun g p =>
      if p.visible = some false then g
      else addToBucket g (extractYear p.date) p)
    []

/-- Bucket lookup, `grouped[year]` for a key known to be present (defaulting
to the empty bucket otherwise). -/
def itemsOf (g : List (String × List PresEntry)) (y : String) : List PresEntry :=
  match g with
  | [] => []
  | (k, items) :: rest => if k = y then items else itemsOf rest y

/-- Decimal value of a list of digit characters. -/
def digitsToNat : List Char → Nat
  | [] => 0
  | c :: cs => (c.toNat - 48) * 10 ^ cs.length + digitsToNat cs

/-- A canonical array-index key in the sense of JS property enumeration: a
non-empty digit string with no leading zero (except `"0"` itself) whose value
is below `2^32 - 1`.  `Object.keys` lists such keys first, in ascending
numeric order. -/
def isArrayIndexKey (s : String) : Bool :=
  !s.data.isEmpty && s.data.all isDigitChar &&
    (s = "0" || s.data.head? != some '0') &&
    decide (digitsToNat s.data < 2 ^ 32 - 1)

/-- Ascending insertion by decimal value, for ordering array-index keys. -/
def insertAscNat (x : String) : List String → List String
  | [] => [x]
  | y :: ys =>
      if digitsToNat x.data ≤ digitsToNat y.data then x :: y :: ys
      else y :: insertAscNat x ys

/-- Sort array-index keys ascending by value. -/
def sortAscNat : List String → List String
  | [] => []
  | x :: xs => insertAscNat x (sortAscNat xs)

/-- `Object.keys(grouped)`: array-index keys first in ascending numeric
order, then the remaining keys in insertion order. -/
def jsObjKeys (g : List (String × List PresEntry)) : List String :=
  let ks := g.map Prod.fst
  sortAscNat (ks.filter isArrayIndexKey) ++ ks.filter (fun k => !isArrayIndexKey k)

/-- JS `ToNumber` restricted to the strings that occur as group keys (runs of
four digits, and non-numeric strings such as `"Other"`): the empty string is
`0`, a digit string is its decimal value, anything else is `NaN` (`none`).
(The full conversion also accepts signs, fractions and hex literals, none of
which can appear as a `\d{4}` match or as the literal `"Other"`.) -/
def jsToNumber (s : String) : Option Int :=
  if s = "" then some 0
  else if s.data.all isDigitChar then some (digitsToNat s.data)
  else none

/-- The sort comparator `(a, b) => b - a` of `renderTemplate` line 97, as the
engine's `SortCompare` consumes it: the subtraction is performed after
`ToNumber` coercion and a `NaN` result is treated as `+0` (elements compare
as equal). -/
def yearCmp (a b : String) : Int :=
  match jsToNumber a, jsToNumber b with
  | some x, some y => y - x
  | _, _ => 0

/-- Stable insertion by an integer-valued comparator: `x` is placed before
the first element it compares `≤ 0` against.  Models the engine's stable
`Array.prototype.sort`. -/
def insertByCmp {α : Type} (c : α → α → Int) (x : α) : List α → List α
  | [] => [x]
  | y :: ys => if c x y ≤ 0 then x :: y :: ys else y :: insertByCmp c x ys

/-- Stable sort by an integer-valued comparator. -/
def sortByCmp {α : Type} (c : α → α → Int) : List α → List α
  | [] => []
  | x :: xs => insertByCmp c x (sortByCmp c xs)

/-- `localized.presentationsByYear`: group keys sorted with the `b - a`
comparator, each paired with its bucket. -/
def presentationsByYear (ps : List PresEntry) : List (String × List PresEntry) :=
  let g := groupPres ps
  (sortByCmp yearCmp (jsObjKeys g)).map (fun y => (y, itemsOf g y))

/-!
## The comparator versus lexicographic string comparison (C3, C4)
-/

/-- Code-unit lexicographic strict comparison of character lists — what the
spec's "string-lexicographic comparison" means for these ASCII keys. -/
def lexLt : List Char → List Char → Bool
  | [], [] => false
  | [], _ :: _ => true
  | _ :: _, [] => false
  | c :: cs, d :: ds =>
      if c.toNat < d.toNat then true
      else if d.toNat < c.toNat then false
      else lexLt cs ds

/-- The comparator the spec sentence describes: descending lexicographic
string comparison (negative when `a` sorts before `b`, i.e. when `a` is
lexicographically greater). -/
def lexDescCmp (a b : String) : Int :=
  if lexLt a.data b.data then 1
  else if lexLt b.data a.data then -1
  else 0

/-- A group key produced by a successful `\d{4}` match: exactly four
digits. -/
def isFourDigits (s : String) : Bool :=
  s.data.length = 4 && s.data.all isDigitChar

/-- A digit string's value is below `10 ^ length`. -/
theorem digitsToNat_lt_pow :
    (cs : List Char) → (∀ c ∈ cs, isDigitChar c = true) →
    digitsToNat cs < 10 ^ cs.length
  | [], _ => by simp [digitsToNat]
  | c :: cs, h => by
      have hc : 48 ≤ c.toNat ∧ c.toNat ≤ 57 := by
        simpa [isDigitChar] using h c (List.mem_cons_self c cs)
      have hIH := digitsToNat_lt_pow cs (fun d hd => h d (List.mem_cons_of_mem _ hd))
      simp only [digitsToNat, List.length_cons, pow_succ]
      have h9 : c.toNat - 48 ≤ 9 := by omega
      have hm : (c.toNat - 48) * 10 ^ cs.length ≤ 9 * 10 ^ cs.length :=
        Nat.mul_le_mul_right _ h9
      linarith

/-- On digit strings of equal length, lexicographic comparison agrees with
comparison of decimal values. -/
theorem lexLt_iff_digitsToNat_lt :
    (as bs : List Char) → as.length = bs.length →
    (∀ c ∈ as, isDigitChar c = true) → (∀ c ∈ bs, isDigitChar c = true) →
    (lexLt as bs = true ↔ digitsToNat as < digitsToNat bs)
  | [], [], _, _, _ => by simp [lexLt, digitsToNat]
  | [], _ :: _, h, _, _ => by simp at h
  | _ :: _, [], h, _, _ => by simp at h
  | a :: as, b :: bs, hlen, ha, hb => by
      have hlen' : as.length = bs.length := by simpa using hlen
      have hda : 48 ≤ a.toNat ∧ a.toNat ≤ 57 := by
        simpa [isDigitChar] using ha a (List.mem_cons_self a as)
      have hdb : 48 ≤ b.toNat ∧ b.toNat ≤ 57 := by
        simpa [isDigitChar] using hb b (List.mem_cons_self b bs)
      have haa : ∀ c ∈ as, isDigitChar c = true :=
        fun c hc => ha c (List.mem_cons_of_mem _ hc)
      have hbb : ∀ c ∈ bs, isDigitChar c = true :=
        fun c hc => hb c (List.mem_cons_of_mem _ hc)
      have hva : digitsToNat as < 10 ^ bs.length := by
        rw [← hlen']; exact digitsToNat_lt_pow as haa
      have hvb : digitsToNat bs < 10 ^ bs.length := digitsToNat_lt_pow bs hbb
      have hIH := lexLt_iff_digitsToNat_lt as bs hlen' haa hbb
      simp only [digitsToNat, lexLt, hlen']
      rcases Nat.lt_trichotomy a.toNat b.toNat with hab | hab | hab
      · simp only [hab, if_true]
        constructor
        · intro _
          have h1 : (a.toNat - 48) + 1 ≤ b.toNat - 48 := by omega
          have h2 : ((a.toNat - 48) + 1) * 10 ^ bs.length ≤ (b.toNat - 48) * 10 ^ bs.length :=
            Nat.mul_le_mul_right _ h1
          have h3 : ((a.toNat - 48) + 1) * 10 ^ bs.length =
              (a.toNat - 48) * 10 ^ bs.length + 10 ^ bs.length := by ring
          linarith
        · intro _; trivial
      · simp only [hab, lt_irrefl, if_false, hIH]
        omega
      · have hnab : ¬ a.toNat < b.toNat := by omega
        simp only [if_neg hnab, if_pos hab]
        constructor
        · intro hfalse; cases hfalse
        · intro hlt
          exfalso
          have h1 : (b.toNat - 48) + 1 ≤ a.toNat - 48 := by omega
          have h2 : ((b.toNat - 48) + 1) * 10 ^ bs.length ≤ (a.toNat - 48) * 10 ^ bs.length :=
            Nat.mul_le_mul_right _ h1
          have h3 : ((b.toNat - 48) + 1) * 10 ^ bs.length =
              (b.toNat - 48) * 10 ^ bs.length + 10 ^ bs.length := by ring
          linarith

/-- `ToNumber` of a four-digit group key is its decimal value. -/
theorem jsToNumber_fourDigits {s : String} (h : isFourDigits s = true) :
    jsToNumber s = some (digitsToNat s.data) := by
  have hne : s ≠ "" := by
    intro he; subst he; simp [isFourDigits] at h
  have hd : s.data.all isDigitChar = true := by
    simp only [isFourDigits, Bool.and_eq_true] at h
    exact h.2
  simp [jsToNumber, hne, hd]

/-- C3: for presentation dates "September 2025", "2024" and one with no
four-digit year, the grouping buckets them under "2025", "2024" and "Other",
and the groups come out in that order: descending by year, with the "Other"
bucket left in place at the end because the `b - a` comparator evaluates to
`NaN` (treated as equal) against it. -/
theorem presentationsByYear_example :
    presentationsByYear
        [⟨none, some "September 2025", 0⟩, ⟨none, some "2024", 1⟩,
          ⟨none, some "Invited talk, TBD", 2⟩] =
      [("2025", [⟨none, some "September 2025", 0⟩]),
        ("2024", [⟨none, some "2024", 1⟩]),
        ("Other", [⟨none, some "Invited talk, TBD", 2⟩])] := by decide

/-- C4, counterexample: the comparator at line 97 is `(a, b) => b - a`, not
descending lexicographic comparison: on the pair ("Other", "2024") the
subtraction is `NaN`, treated as `+0` (equal), whereas descending
lexicographic comparison would put `"Other"` strictly first. -/
theorem yearCmp_not_lex_cex :
    yearCmp "Other" "2024" = 0 ∧ lexDescCmp "Other" "2024" = -1 ∧
      ¬ ((yearCmp "Other" "2024" < 0) ↔ (lexDescCmp "Other" "2024" < 0)) := by decide

/-- C4 as amended: on pairs of four-digit year keys the `b - a` comparator
orders exactly as descending lexicographic comparison does; but on a
non-numeric key such as the literal `"Other"` the subtraction is `NaN`,
which `Array.prototype.sort` treats as `+0`, so `"Other"` compares equal to
every key instead of lexicographically. -/
theorem yearCmp_numeric_desc :
    (∀ a b : String, isFourDigits a = true → isFourDigits b = true →
        ((yearCmp a b < 0 ↔ lexDescCmp a b < 0) ∧ (0 < yearCmp a b ↔ 0 < lexDescCmp a b))) ∧
    (∀ s : String, yearCmp "Other" s = 0 ∧ yearCmp s "Other" = 0) := by
  constructor
  · intro a b ha hb
    have hna := jsToNumber_fourDigits ha
    have hnb := jsToNumber_fourDigits hb
    have hlen : a.data.length = b.data.length := by
      simp only [isFourDigits, Bool.and_eq_true, decide_eq_true_eq] at ha hb
      omega
    have hda : ∀ c ∈ a.data, isDigitChar c = true := by
      simp only [isFourDigits, Bool.and_eq_true, List.all_eq_true] at ha
      exact ha.2
    have hdb : ∀ c ∈ b.data, isDigitChar c = true := by
      simp only [isFourDigits, Bool.and_eq_true, List.all_eq_true] at hb
      exact hb.2
    have hlex1 := lexLt_iff_digitsToNat_lt a.data b.data hlen hda hdb
    have hlex2 := lexLt_iff_digitsToNat_lt b.data a.data hlen.symm hdb hda
    have hy : yearCmp a b = (digitsToNat b.data : Int) - (digitsToNat a.data : Int) := by
      simp [yearCmp, hna, hnb]
    rcases Nat.lt_trichotomy (digitsToNat a.data) (digitsToNat b.data) with hab | hab | hab
    · have h1 : lexLt a.data b.data = true := hlex1.mpr hab
      have h2 : lexLt b.data a.data = false := by
        rcases hl : lexLt b.data a.data with _ | _
        · rfl
        · exact absurd (hlex2.mp hl) (by omega)
      simp only [lexDescCmp, h1, if_true, hy]
      constructor <;> constructor <;> intro h <;> omega
    · have h1 : lexLt a.data b.data = false := by
        rcases hl : lexLt a.data b.data with _ | _
        · rfl
        · exact absurd (hlex1.mp hl) (by omega)
      have h2 : lexLt b.data a.data = false := by
        rcases hl : lexLt b.data a.data with _ | _
        · rfl
        · exact absurd (hlex2.mp hl) (by omega)
      simp only [lexDescCmp, h1, h2, if_false, Bool.false_eq_true, hy]
      constructor <;> constructor <;> intro h <;> omega
    · have h1 : lexLt a.data b.data = false := by
        rcases hl : lexLt a.data b.data with _ | _
        · rfl
        · exact absurd (hlex1.mp hl) (by omega)
      have h2 : lexLt b.data a.data = true := hlex2.mpr hab
      simp only [lexDescCmp, h1, h2, if_true, Bool.false_eq_true, if_false, hy]
      constructor <;> constructor <;> intro h <;> omega
  · intro s
    have hO : jsToNumber "Other" = none := by decide
    constructor
    · cases hs : jsToNumber s <;> simp [yearCmp, hO, hs]
    · cases hs : jsToNumber s <;> simp [yearCmp, hO, hs]

/-- Witness for the amended C4 on the concrete four-digit keys "2025" and
"2024". -/
theorem yearCmp_numeric_desc_witness :
    (yearCmp "2025" "2024" < 0 ↔ lexDescCmp "2025" "2024" < 0) ∧
      (0 < yearCmp "2025" "2024" ↔ 0 < lexDescCmp "2025" "2024") :=
  yearCmp_numeric_desc.1 "2025" "2024" (by decide) (by decide)

/-!
## Hidden presentations are excluded (C9)
-/

/-- No entry stored in any bucket of `g` has `visible === false`. -/
def BucketsVisible (g : List (String × List PresEntry)) : Prop :=
  ∀ kv ∈ g, ∀ p ∈ kv.2, p.visible ≠ some false

/-- `addToBucket` preserves `BucketsVisible` when the pushed entry is not
hidden. -/
theorem bucketsVisible_addToBucket {g : List (String × List PresEntry)}
    {y : String} {p : PresEntry} (hg : BucketsVisible g)
    (hp : p.visible ≠ some false) : BucketsVisible (addToBucket g y p) := by
  induction g with
  | nil =>
      intro kv hkv q hq
      simp [addToBucket] at hkv
      subst hkv
      simp at hq
      subst hq
      exact hp
  | cons head rest ih =>
      obtain ⟨k, items⟩ := head
      intro kv hkv q hq
      by_cases hk : k = y
      · subst hk
        simp [addToBucket] at hkv
        rcases hkv with hkv | hkv
        · subst hkv
          simp at hq
          rcases hq with hq | hq
          · exact hg (k, items) (by simp) q (by simpa using hq)
          · subst hq; exact hp
        · exact hg kv (List.mem_cons_of_mem _ hkv) q hq
      · simp [addToBucket, hk] at hkv
        rcases hkv with hkv | hkv
        · subst hkv
          exact hg (k, items) (by simp) q hq
        · have hrest : BucketsVisible rest :=
            fun kv' hkv' q' hq' => hg kv' (List.mem_cons_of_mem _ hkv') q' hq'
          exact ih hrest kv hkv q hq

/-- The grouping fold preserves `BucketsVisible` from any starting
accumulator. -/
theorem bucketsVisible_foldl (ps : List PresEntry) :
    ∀ g, BucketsVisible g →
      BucketsVisible
        (ps.foldl
          (fun g p =>
            if p.visible = some false then g
            else addToBucket g (extractYear p.date) p)
          g) := by
  induction ps with
  | nil => intro g hg; simpa using hg
  | cons p ps ih =>
      intro g hg
      simp only [List.foldl_cons]
      by_cases hp : p.visible = some false
      · simpa [hp] using ih g hg
      · simpa [hp] using ih _ (bucketsVisible_addToBucket hg hp)

/-- Every bucket built by `groupPres` contains only visible entries. -/
theorem bucketsVisible_groupPres (ps : List PresEntry) :
    BucketsVisible (groupPres ps) :=
  bucketsVisible_foldl ps [] (fun _ h => by simp at h)

/-- A member of `itemsOf g y` lives in some bucket of `g`. -/
theorem mem_itemsOf {g : List (String × List PresEntry)} {y : String}
    {p : PresEntry} (hp : p ∈ itemsOf g y) (hg : BucketsVisible g) :
    p.visible ≠ some false := by
  induction g with
  | nil => simp [itemsOf] at hp
  | cons head rest ih =>
      obtain ⟨k, items⟩ := head
      by_cases hk : k = y
      · simp only [itemsOf, if_pos hk] at hp
        exact hg (k, items) (by simp) p hp
      · simp only [itemsOf, if_neg hk] at hp
        exact ih hp (fun kv hkv q hq => hg kv (List.mem_cons_of_mem _ hkv) q hq)

/-- C9: the presentations grouping skips every entry with `visible === false`,
so no hidden entry appears in any year bucket of `presentationsByYear`. -/
theorem presentationsByYear_no_hidden (ps : List PresEntry) (y : String)
    (items : List PresEntry) (p : PresEntry)
    (hmem : (y, items) ∈ presentationsByYear ps) (hp : p ∈ items) :
    p.visible ≠ some false := by
  simp only [presentationsByYear, List.mem_map] at hmem
  obtain ⟨y', _, heq⟩ := hmem
  have hitems : itemsOf (groupPres ps) y' = items := congrArg Prod.snd heq
  rw [← hitems] at hp
  exact mem_itemsOf hp (bucketsVisible_groupPres ps)

/-- Witness for C9: a visible entry next to a hidden one; the hidden entry
(id 1) is absent from the rendered buckets, and the bucket member satisfies
the conclusion. -/
theorem presentationsByYear_no_hidden_witness :
    (("2024", [(⟨some true, some "2024", 0⟩ : PresEntry)]) ∈
        presentationsByYear
          [⟨some true, some "2024", 0⟩, ⟨some false, some "2024", 1⟩]) ∧
      ((⟨some true, some "2024", 0⟩ : PresEntry) ∈
        [(⟨some true, some "2024", 0⟩ : PresEntry)]) ∧
      (⟨some true, some "2024", 0⟩ : PresEntry).visible ≠ some false :=
  ⟨by decide, by decide,
    presentationsByYear_no_hidden
      [⟨some true, some "2024", 0⟩, ⟨some false, some "2024", 1⟩] "2024"
      [⟨some true, some "2024", 0⟩] ⟨some true, some "2024", 0⟩
      (by decide) (by decide)⟩

/-!
## Publications sorting (C5)
(`renderTemplate`, `generate_portfolio.js` lines 101–113)
-/

/-- Inserting with `insertByCmp` permutes. -/
theorem insertByCmp_perm {α : Type} (c : α → α → Int) (x : α) :
    (l : List α) → (insertByCmp c x l).Perm (x :: l)
  | [] => List.Perm.refl _
  | y :: ys => by
      by_cases h : c x y ≤ 0
      · simp [insertByCmp, h]
      · simp only [insertByCmp, if_neg h]
        exact ((insertByCmp_perm c x ys).cons y).trans (List.Perm.swap x y ys)

/-- `sortByCmp` permutes its input. -/
theorem sortByCmp_perm {α : Type} (c : α → α → Int) :
    (l : List α) → (sortByCmp c l).Perm l
  | [] => List.Perm.refl _
  | x :: xs =>
      (insertByCmp_perm c x (sortByCmp c xs)).trans ((sortByCmp_perm c xs).cons x)

/-- `insertByCmp` preserves sortedness for a comparator whose strict verdicts
are antisymmetric. -/
theorem insertByCmp_chain {α : Type} {c : α → α → Int}
    (hc : ∀ a b, 0 < c a b → c b a ≤ 0) (x : α) :
    (l : List α) → l.Chain' (fun a b => c a b ≤ 0) →
      (insertByCmp c x l).Chain' (fun a b => c a b ≤ 0)
  | [], _ => by simp [insertByCmp]
  | y :: ys, h => by
      by_cases hxy : c x y ≤ 0
      · simp only [insertByCmp, if_pos hxy]
        exact List.chain'_cons.mpr ⟨hxy, h⟩
      · simp only [insertByCmp, if_neg hxy]
        have htail := insertByCmp_chain hc x ys h.tail
        refine List.chain'_cons'.mpr ⟨?_, htail⟩
        intro z hz
        cases ys with
        | nil =>
            simp [insertByCmp] at hz
            subst hz
            exact hc x y (by omega)
        | cons w ws =>
            by_cases hxw : c x w ≤ 0
            · simp only [insertByCmp, if_pos hxw, List.head?_cons,
                Option.mem_def, Option.some.injEq] at hz
              subst hz
              exact hc x y (by omega)
            · simp only [insertByCmp, if_neg hxw, List.head?_cons,
                Option.mem_def, Option.some.injEq] at hz
              subst hz
              exact (List.chain'_cons.mp h).1

/-- `sortByCmp` output is sorted (adjacent comparator verdicts `≤ 0`). -/
theorem sortByCmp_chain {α : Type} {c : α → α → Int}
    (hc : ∀ a b, 0 < c a b → c b a ≤ 0) :
    (l : List α) → (sortByCmp c l).Chain' (fun a b => c a b ≤ 0)
  | [] => by simp [sortByCmp]
  | x :: xs => insertByCmp_chain hc x _ (sortByCmp_chain hc xs)

/-- A publication record, abstracted to the `year` field the comparator reads
plus an identifier standing for the rest of the record.  `none` models a
missing `year`. -/
structure PubEntry where
  year : Option Int
  id : Nat
deriving DecidableEq, Repr

/-- `parseInt(e.year || 0)`: a missing (undefined, hence falsy) `year` is
replaced by `0`; an integer year parses to itself. -/
def effYear (e : PubEntry) : Int :=
  match e.year with
  | some y => y
  | none => 0

/-- `sortByYear = (a, b) => parseInt(b.year || 0) - parseInt(a.year || 0)` —
line 103. -/
def pubCmp (a b : PubEntry) : Int := effYear b - effYear a

/-- `[...list].sort(sortByYear)`: a sorted copy of a category list. -/
def sortPubs (l : List PubEntry) : List PubEntry := sortByCmp pubCmp l

/-- The three category lists of `localized.publications`; `none` models an
absent category field (the code's `if (localized.publications.books)`
guard). -/
structure Publications where
  books : Option (List PubEntry)
  book_chapters : Option (List PubEntry)
  articles : Option (List PubEntry)
deriving DecidableEq, Repr

/-- Lines 104–112: each present category list is replaced by a sorted
copy. -/
def shapePublications (p : Publications) : Publications :=
  { books := p.books.map sortPubs
    book_chapters := p.book_chapters.map sortPubs
    articles := p.articles.map sortPubs }

/-- C5: every category list is sorted by numeric year descending with missing
years as 0 (the result is a permutation of the input with adjacent years
non-increasing), each present category of the localized document is replaced
by its sorted copy, and the spec's concrete instance
`[2020, 2023, missing] → [2023, 2020, missing]` holds. -/
theorem publications_sort_desc :
    (∀ l : List PubEntry, (sortPubs l).Perm l ∧
        (sortPubs l).Chain' (fun a b => effYear b ≤ effYear a)) ∧
    (∀ pubs : Publications,
        (shapePublications pubs).books = pubs.books.map sortPubs ∧
        (shapePublications pubs).book_chapters = pubs.book_chapters.map sortPubs ∧
        (shapePublications pubs).articles = pubs.articles.map sortPubs) ∧
    sortPubs [⟨some 2020, 0⟩, ⟨some 2023, 1⟩, ⟨none, 2⟩] =
      [⟨some 2023, 1⟩, ⟨some 2020, 0⟩, ⟨none, 2⟩] := by
  have hc : ∀ a b : PubEntry, 0 < pubCmp a b → pubCmp b a ≤ 0 := by
    intro a b h
    simp only [pubCmp] at h ⊢
    omega
  refine ⟨fun l => ⟨sortByCmp_perm pubCmp l, ?_⟩, fun pubs => ⟨rfl, rfl, rfl⟩, by decide⟩
  exact (sortByCmp_chain hc l).imp (fun a b h => by simp only [pubCmp] at h; omega)

/-!
## Editor save: backup rotation (C6) and its frame (C10)
(`server.js`, POST /api/data handler, lines 87–115)

The base directory is modelled as the list of its file names (a real
directory has pairwise-distinct names).  A save at clock value `t`
(`Date.now()`) copies the data file to `cv_data_backup_<t>.json` when the
data file exists, prunes backups beyond the 5 lexicographically greatest
names, and (re)writes the data file.
-/

/-- The end-anchored part `\d*\.json$` after the first digit: zero or more
further digits followed by exactly `.json` at the end of the name. -/
def digitsDotJsonEnd : List Char → Bool
  | '.' :: 'j' :: 's' :: 'o' :: 'n' :: [] => true
  | c :: cs => isDigitChar c && digitsDotJsonEnd cs
  | [] => false

/-- `\d+\.json$`: at least one digit, then `.json` ending the name. -/
def backupTail : List Char → Bool
  | c :: cs => isDigitChar c && digitsDotJsonEnd cs
  | [] => false

/-- The literal part of the backup pattern. -/
def litBackup : List Char := "cv_data_backup_".data

/-- Scan for `/cv_data_backup_\d+\.json$/` at every start position (the
regex is not anchored at the start). -/
def matchesBackupAux : List Char → Bool
  | [] => false
  | c :: cs =>
      (litBackup.isPrefixOf (c :: cs) && backupTail (List.drop litBackup.length (c :: cs)))
        || matchesBackupAux cs

/-- `backupPattern.test(f)` for `/cv_data_backup_\d+\.json$/`. -/
def matchesBackup (f : String) : Bool := matchesBackupAux f.data

/-- JS default string sort order: `a` not code-unit-greater than `b`. -/
def strLeB (a b : String) : Bool := !lexLt b.data a.data

/-- Stable insertion for the default (lexicographic) string sort. -/
def insertStrLe (x : String) : List String → List String
  | [] => [x]
  | y :: ys => if strLeB x y then x :: y :: ys else y :: insertStrLe x ys

/-- `.sort()` on an array of strings: ascending code-unit order. -/
def sortStrings : List String → List String
  | [] => []
  | x :: xs => insertStrLe x (sortStrings xs)

/-- The persisted document's file name, `cv_data.json`. -/
def dataFileName : String := "cv_data.json"

/-- `DATA_FILE.replace('.json', `_backup_${Date.now()}.json`)` with the
fixed data file name. -/
def backupName (t : Nat) : String := "cv_data_backup_" ++ toString t ++ ".json"

/-- Lines 96–105: list the directory, keep names matching the backup
pattern, sort, reverse (newest first), and unlink everything after the
first five. -/
def pruneAfterBackup (files1 : List String) : List String :=
  let toDelete := ((sortStrings (files1.filter matchesBackup)).reverse).drop 5
  files1.filter (fun f => decide (f ∉ toDelete))

/-- The whole save handler: back up the existing data file (lines 92–94),
prune old backups (lines 96–105), then write the data file (line 109). -/
def saveFiles (files : List String) (t : Nat) : List String :=
  let afterPrune :=
    if dataFileName ∈ files then pruneAfterBackup (files ++ [backupName t])
    else files
  if dataFileName ∈ afterPrune then afterPrune else afterPrune ++ [dataFileName]

/-- A sequence of saves at the given clock values. -/
def saveTimes (files : List String) (ts : List Nat) : List String :=
  ts.foldl saveFiles files

/-- Insertion keeps exactly the inserted element and the old ones. -/
theorem insertStrLe_perm (x : String) :
    (l : List String) → (insertStrLe x l).Perm (x :: l)
  | [] => List.Perm.refl _
  | y :: ys => by
      by_cases h : strLeB x y = true
      · simp [insertStrLe, h]
      · simp only [insertStrLe, if_neg h]
        exact ((insertStrLe_perm x ys).cons y).trans (List.Perm.swap x y ys)

/-- `sortStrings` permutes its input. -/
theorem sortStrings_perm :
    (l : List String) → (sortStrings l).Perm l
  | [] => List.Perm.refl _
  | x :: xs =>
      (insertStrLe_perm x (sortStrings xs)).trans ((sortStrings_perm xs).cons x)

/-- Everything the pruning step deletes matches the backup pattern. -/
theorem mem_prune_of_nonbackup {files1 : List String} {f : String}
    (hf : f ∈ files1) (hnm : matchesBackup f = false) :
    f ∈ pruneAfterBackup files1 := by
  unfold pruneAfterBackup
  refine List.mem_filter.mpr ⟨hf, ?_⟩
  simp only [decide_eq_true_eq]
  intro hdel
  have h2 : f ∈ (sortStrings (files1.filter matchesBackup)).reverse := by
    have := List.take_append_drop 5 ((sortStrings (files1.filter matchesBackup)).reverse)
    rw [← this]
    exact List.mem_append_right _ hdel
  have h3 : f ∈ sortStrings (files1.filter matchesBackup) := List.mem_reverse.mp h2
  have h4 : f ∈ files1.filter matchesBackup :=
    ((sortStrings_perm _).mem_iff).mp h3
  have h5 := List.of_mem_filter h4
  rw [hnm] at h5
  cases h5

/-- C10: the pruning step of a save deletes only names matching
`cv_data_backup_<digits>.json`; every other name in the directory (the data
file, uploaded photos, …) is still present after the save. -/
theorem saveFiles_preserves_nonbackups (files : List String) (t : Nat) (f : String)
    (hf : f ∈ files) (hnm : matchesBackup f = false) : f ∈ saveFiles files t := by
  unfold saveFiles
  by_cases hd : dataFileName ∈ files
  · simp only [if_pos hd]
    have hmem : f ∈ pruneAfterBackup (files ++ [backupName t]) :=
      mem_prune_of_nonbackup (List.mem_append_left _ hf) hnm
    by_cases h2 : dataFileName ∈ pruneAfterBackup (files ++ [backupName t])
    · rw [if_pos h2]; exact hmem
    · rw [if_neg h2]; exact List.mem_append_left _ hmem
  · simp only [if_neg hd]
    exact List.mem_append_left _ hf

/-- Witness for C10: an uploaded photo name survives a save. -/
theorem saveFiles_preserves_nonbackups_witness :
    "fotos/portrait_1700000000000.jpeg" ∈
      saveFiles [dataFileName, "fotos/portrait_1700000000000.jpeg"] 1735000000001 :=
  saveFiles_preserves_nonbackups _ _ _ (by decide) (by decide)

/-- After pruning, at most five names matching the backup pattern remain:
the kept backups all lie among the first five of the descending-sorted
backup list. -/
theorem pruneAfterBackup_backups_le_five (files1 : List String)
    (hnd : files1.Nodup) :
    ((pruneAfterBackup files1).filter matchesBackup).length ≤ 5 := by
  simp only [pruneAfterBackup]
  set SR := (sortStrings (files1.filter matchesBackup)).reverse with hSR
  have hsub :
      (files1.filter (fun f => decide (f ∉ SR.drop 5))).filter matchesBackup ⊆
        SR.take 5 := by
    intro x hx
    have hx1 := List.mem_filter.mp hx
    have hx2 := List.mem_filter.mp hx1.1
    have hxB : x ∈ files1.filter matchesBackup :=
      List.mem_filter.mpr ⟨hx2.1, hx1.2⟩
    have hxS : x ∈ sortStrings (files1.filter matchesBackup) :=
      (sortStrings_perm _).mem_iff.mpr hxB
    have hxSR : x ∈ SR := List.mem_reverse.mpr hxS
    have hxnd : x ∉ SR.drop 5 := by simpa using hx2.2
    have hta := List.take_append_drop 5 SR
    rw [← hta] at hxSR
    rcases List.mem_append.mp hxSR with h | h
    · exact h
    · exact absurd h hxnd
  have hknd :
      ((files1.filter (fun f => decide (f ∉ SR.drop 5))).filter matchesBackup).Nodup :=
    (hnd.filter _).filter _
  calc ((files1.filter (fun f => decide (f ∉ SR.drop 5))).filter matchesBackup).length
      ≤ (SR.take 5).length := (hknd.subperm hsub).length_le
    _ ≤ 5 := List.length_take_le 5 SR

/-- A save from a well-formed directory state with the data file present
leaves at most five backups. -/
theorem saveFiles_backups_le_five (files : List String) (t : Nat)
    (h1 : files.Nodup) (h2 : backupName t ∉ files) (h3 : dataFileName ∈ files) :
    ((saveFiles files t).filter matchesBackup).length ≤ 5 := by
  unfold saveFiles
  simp only [if_pos h3]
  have hnd1 : (files ++ [backupName t]).Nodup := by
    simp [List.nodup_append, h1, h2]
  have hb := pruneAfterBackup_backups_le_five _ hnd1
  by_cases h4 : dataFileName ∈ pruneAfterBackup (files ++ [backupName t])
  · rw [if_pos h4]; exact hb
  · rw [if_neg h4, List.filter_append]
    have hdm : List.filter matchesBackup [dataFileName] = [] := by decide
    rw [hdm, List.append_nil]
    exact hb

/-- C6: backup rotation.  In general a save from a duplicate-free directory
containing the data file leaves at most 5 backups; concretely, from a state
with only the data file, two successive saves leave exactly the two backups
(plus the data file), and after nine successive saves only the backups of
the five most recent save times remain, the older four having been
deleted. -/
theorem saveFiles_rotation :
    (∀ files t, files.Nodup → backupName t ∉ files → dataFileName ∈ files →
        ((saveFiles files t).filter matchesBackup).length ≤ 5) ∧
    saveTimes [dataFileName] [1735000000001, 1735000000002] =
      [dataFileName, backupName 1735000000001, backupName 1735000000002] ∧
    saveTimes [dataFileName]
        [1735000000001, 1735000000002, 1735000000003, 1735000000004,
          1735000000005, 1735000000006, 1735000000007, 1735000000008,
          1735000000009] =
      [dataFileName, backupName 1735000000005, backupName 1735000000006,
        backupName 1735000000007, backupName 1735000000008,
        backupName 1735000000009] :=
  ⟨saveFiles_backups_le_five, by decide, by decide⟩

/-- Witness for C6 at the one-file starting state. -/
theorem saveFiles_rotation_witness :
    [dataFileName].Nodup ∧ backupName 1735000000001 ∉ [dataFileName] ∧
      dataFileName ∈ [dataFileName] ∧
      ((saveFiles [dataFileName] 1735000000001).filter matchesBackup).length ≤ 5 :=
  ⟨by decide, by decide, by decide,
    saveFiles_rotation.1 [dataFileName] 1735000000001 (by decide) (by decide)
      (by decide)⟩

/-!
## Site builder output paths (C7)
(`generatePortfolio`, `generate_portfolio.js` lines 179–213)
-/

/-- The four page templates rendered per language. -/
inductive PageKind : Type where
  | home : PageKind
  | cv : PageKind
  | publications : PageKind
  | presentations : PageKind
deriving DecidableEq, Repr

/-- The fixed language set, `LANGUAGES = ['en', 'nl']`. -/
def LANGUAGES : List String := ["en", "nl"]

/-- Output path (relative to the output directory) each page is written to:
the default language's pages are `index.html` files at the root-level
locations; a non-default language gets `<lang>/index.html` for the home page
but sibling files `cv/<lang>.html`, `publications/<lang>.html`,
`presentations/<lang>.html` for the other three. -/
def pagePath (lang : String) : PageKind → String
  | .home => if lang = "en" then "index.html" else lang ++ "/index.html"
  | .cv => if lang = "en" then "cv/index.html" else "cv/" ++ lang ++ ".html"
  | .publications =>
      if lang = "en" then "publications/index.html"
      else "publications/" ++ lang ++ ".html"
  | .presentations =>
      if lang = "en" then "presentations/index.html"
      else "presentations/" ++ lang ++ ".html"

/-- All paths written by the per-language page loop, in write order. -/
def generatedPages : List String :=
  (LANGUAGES.map (fun lang =>
    [PageKind.home, .cv, .publications, .presentations].map (pagePath lang))).flatten

/-- Does `path` lie under the language-coded subdirectory `lang/`? -/
def underLangDir (lang path : String) : Bool :=
  (lang ++ "/").data.isPrefixOf path.data

/-- C7, counterexample: the Dutch CV page is written to `cv/nl.html`, which
is not under the `nl/` language subdirectory. -/
theorem pagePath_not_under_lang_dir_cex :
    pagePath "nl" PageKind.cv = "cv/nl.html" ∧
      underLangDir "nl" (pagePath "nl" PageKind.cv) = false := by decide

/-- C7 as amended: each of the four templates is written once per language in
{en, nl}; the default language's pages sit at the root-level paths; of the
non-default language's pages only the home page goes under the `nl/`
subdirectory, while the CV, publications and presentations pages are written
beside the default pages as `<section>/nl.html`. -/
theorem generatedPages_layout :
    generatedPages =
      ["index.html", "cv/index.html", "publications/index.html",
        "presentations/index.html", "nl/index.html", "cv/nl.html",
        "publications/nl.html", "presentations/nl.html"] ∧
    (∀ p : PageKind, (underLangDir "nl" (pagePath "nl" p) = true ↔ p = PageKind.home)) := by
  refine ⟨by decide, ?_⟩
  intro p
  cases p <;> decide

/-!
## PDF export failure handling (C8)
(`generatePDFBuffer` / library `generatePDF` in the shared library;
`generatePDF` in `generate_cv.js` lines 58–97)

An export is modelled by the availability of the rendering engine
(`require('puppeteer')` succeeding) and the outcome of the single
launch/render attempt.  The model records how it ends — normally, by a
thrown error, or by terminating the process — together with the number of
rendering-engine launches performed, which makes "no retry" expressible.
-/

/-- How a PDF export ends. -/
inductive ExportOutcome : Type where
  | ok : ExportOutcome
  | thrown : String → ExportOutcome
  | exited : Nat → ExportOutcome
deriving DecidableEq, Repr

/-- Outcome plus the number of rendering-engine launches performed. -/
structure ExportRun where
  outcome : ExportOutcome
  launches : Nat
deriving DecidableEq, Repr

/-- Is the outcome an error thrown to the caller? -/
def isThrownError : ExportOutcome → Bool
  | .thrown _ => true
  | _ => false

/-- `generatePDFBuffer` (library, lines 365–397): a failing
`require('puppeteer')` throws `Error('puppeteer not installed. Run: npm
install puppeteer')` before any launch; otherwise the engine is launched
once and a crash of the render propagates as the thrown error. -/
def generatePDFBuffer (installed : Bool) (render : Except String Unit) : ExportRun :=
  if installed then
    match render with
    | .ok _ => ⟨.ok, 1⟩
    | .error e => ⟨.thrown e, 1⟩
  else ⟨.thrown "puppeteer not installed. Run: npm install puppeteer", 0⟩

/-- The library `generatePDF` (lines 322–360): identical failure behavior to
`generatePDFBuffer`. -/
def generatePDF_lib (installed : Bool) (render : Except String Unit) : ExportRun :=
  if installed then
    match render with
    | .ok _ => ⟨.ok, 1⟩
    | .error e => ⟨.thrown e, 1⟩
  else ⟨.thrown "puppeteer not installed. Run: npm install puppeteer", 0⟩

/-- `generatePDF` in the CLI `generate_cv.js` (lines 58–97): a failing
`require('puppeteer')` is handled with `console.error` and
`process.exit(1)` — the process terminates instead of throwing to the
caller; a crash after a successful launch still propagates. -/
def generatePDF_cli (installed : Bool) (render : Except String Unit) : ExportRun :=
  if installed then
    match render with
    | .ok _ => ⟨.ok, 1⟩
    | .error e => ⟨.thrown e, 1⟩
  else ⟨.exited 1, 0⟩

/-- C8, counterexample: with the engine unavailable, the CLI `generatePDF`
does not surface a thrown error to its caller — it exits the process with
code 1. -/
theorem generatePDF_cli_no_throw_cex :
    isThrownError (generatePDF_cli false (Except.ok ())).outcome = false ∧
      (generatePDF_cli false (Except.ok ())).outcome = ExportOutcome.exited 1 := by decide

/-- C8 as amended: when the rendering engine is unavailable the two library
export functions throw the descriptive error to their caller, while the CLI
`generatePDF` logs it and exits the process with code 1; in every code path
each export performs at most one engine launch (no retry), and a failure of
the single attempt propagates directly as the thrown error. -/
theorem pdfExport_no_retry :
    (∀ r, generatePDFBuffer false r =
        ⟨.thrown "puppeteer not installed. Run: npm install puppeteer", 0⟩) ∧
    (∀ r, generatePDF_lib false r =
        ⟨.thrown "puppeteer not installed. Run: npm install puppeteer", 0⟩) ∧
    (∀ r, generatePDF_cli false r = ⟨.exited 1, 0⟩) ∧
    (∀ i r, (generatePDFBuffer i r).launches ≤ 1 ∧
        (generatePDF_lib i r).launches ≤ 1 ∧ (generatePDF_cli i r).launches ≤ 1) ∧
    (∀ e, (generatePDFBuffer true (.error e)).outcome = .thrown e ∧
        (generatePDF_lib true (.error e)).outcome = .thrown e ∧
        (generatePDF_cli true (.error e)).outcome = .thrown e) := by
  refine ⟨fun r => rfl, fun r => rfl, fun r => rfl, fun i r => ?_, fun e => ⟨rfl, rfl, rfl⟩⟩
  cases i <;> cases r <;> exact ⟨by simp [generatePDFBuffer], by simp [generatePDF_lib],
    by simp [generatePDF_cli]⟩
